import Mathlib

/-!
Verification of `internal/lsp/mod/diagnostics.go` (package `mod` of the
Bluebugs/tools repository): the go.mod diagnostics-and-quick-fix engine.

The Go source is shallowly embedded below.  External collaborators that are
not part of the repository source (the snapshot, the tidy handle, the parsed
modfile, the column mapper, and the module path/version validator
`module.Check` from golang.org/x/mod) are represented as explicit data:
structures of functions injected into each operation, exactly as the spec
describes them as injected capabilities.  Fallible Go calls returning
`(T, error)` are embedded as `Except GoErr T`.

Strings are Lean `String`s; the character-level scanning done by
`ExtractGoCommandError` (split on colons, trim, regex match) is embedded by
structural recursion over `String.data`.
-/

set_option autoImplicit false

namespace Gopls

/-- A protocol position (zero-based line / character). -/
structure Pos where
  line : Nat
  character : Nat
deriving DecidableEq, Repr

/-- A protocol range. -/
structure Range where
  start : Pos
  endPos : Pos
deriving DecidableEq, Repr

/-- `protocol.DiagnosticSeverity`; the engine only ever produces
`error` and `warning`. -/
inductive Severity where
  | error
  | warning
  | information
  | hint
deriving DecidableEq, Repr

/-- Modelled from the spec: the position comparison underlying the range
comparison used by same-diagnostic equality (`protocol.ComparePosition`,
which is not part of `src/`): positions are ordered by line, then by
character. -/
def ComparePosition (a b : Pos) : Int :=
  if a.line < b.line then -1
  else if b.line < a.line then 1
  else if a.character < b.character then -1
  else if b.character < a.character then 1
  else 0

/-- Modelled from the spec: the range comparison used by same-diagnostic
equality (`protocol.CompareRange`, which is not part of `src/`): ranges are
ordered by start position, then by end position; two ranges compare equal
(result `0`) precisely when both endpoints coincide. -/
def CompareRange (a b : Range) : Int :=
  let r := ComparePosition a.start b.start
  if r ≠ 0 then r else ComparePosition a.endPos b.endPos

/-- `protocol.Diagnostic` (the fields the engine reads). -/
structure ProtoDiagnostic where
  range : Range
  severity : Severity
  source : String
  message : String
deriving DecidableEq, Repr

/-- A text edit (`protocol.TextEdit`); its contents are opaque to the
engine, which only moves edits around. -/
structure TextEdit where
  range : Range
  newText : String
deriving DecidableEq, Repr

/-- `source.SuggestedFix`: a quick fix with a title and per-file edits.
The Go field `Edits` is a `map[span.URI][]protocol.TextEdit`; it is
embedded as an association list (the Go code only ranges over it). -/
structure SuggestedFix where
  title : String
  edits : List (String × List TextEdit)
deriving DecidableEq, Repr

/-- `source.Error`: one analysis error from the tidy analysis. -/
structure SourceError where
  message : String
  range : Range
  category : String
  uri : String
  suggestedFixes : List SuggestedFix
deriving DecidableEq, Repr

/-- `source.Diagnostic` as produced by this package (the fields it sets). -/
structure SourceDiagnostic where
  message : String
  range : Range
  severity : Severity
  source : String
deriving DecidableEq, Repr

/-- `module.Version`: a module path together with a version. -/
structure ModVersion where
  path : String
  version : String
deriving DecidableEq, Repr

/-- Errors returned by the external collaborators.  `tmpModfileUnsupported`
is `source.ErrTmpModfileUnsupported`, the well-known capability-gap value
the code compares against; every other error is carried as text. -/
inductive GoErr where
  | tmpModfileUnsupported
  | msg (s : String)
deriving DecidableEq, Repr

/-- A versioned file handle (`source.FileHandle`): `ident` is the value of
`Identity()`, `version` of `Version()`, `uri` of `URI()`. -/
structure FileHandle where
  ident : String
  version : Int
  uri : String
deriving DecidableEq, Repr

/-- `protocol.VersionedTextDocumentIdentifier` (flattened). -/
structure VersionedTextDocumentIdentifier where
  version : Int
  uri : String
deriving DecidableEq, Repr

/-- `protocol.TextDocumentEdit`. -/
structure TextDocumentEdit where
  textDocument : VersionedTextDocumentIdentifier
  edits : List TextEdit
deriving DecidableEq, Repr

/-- `protocol.WorkspaceEdit` (the `DocumentChanges` field). -/
structure WorkspaceEdit where
  documentChanges : List TextDocumentEdit
deriving DecidableEq, Repr

/-- `protocol.CodeAction`. -/
structure CodeAction where
  title : String
  kind : String
  diagnostics : List ProtoDiagnostic
  edit : WorkspaceEdit
deriving DecidableEq, Repr

/-- `modfile.Line`: only the byte offsets of `Start` and `End` are read. -/
structure Line where
  startByte : Nat
  endByte : Nat
deriving DecidableEq, Repr

/-- A `require` statement of the parsed modfile. -/
structure ReqStmt where
  mod : ModVersion
  stx : Line
deriving DecidableEq, Repr

/-- An `exclude` statement of the parsed modfile. -/
structure ExcStmt where
  mod : ModVersion
  stx : Line
deriving DecidableEq, Repr

/-- A `replace` statement of the parsed modfile. -/
structure RepStmt where
  old : ModVersion
  new : ModVersion
  stx : Line
deriving DecidableEq, Repr

/-- The parsed modfile (`modfile.File`): the statement lists the engine
searches. -/
structure ModFile where
  require : List ReqStmt
  exclude : List ExcStmt
  replace : List RepStmt
deriving DecidableEq, Repr

/-- A `span.Point`: line, column and byte offset. -/
structure Point where
  line : Nat
  col : Nat
  offset : Nat
deriving DecidableEq, Repr

/-- Modelled from the spec: the position-mapping helper
(`protocol.ColumnMapper`, not part of `src/`), an injected capability
converting byte offsets to line/column positions (`Converter.ToPosition`)
and spans to protocol ranges (`Range`). -/
structure ColumnMapper where
  toPosition : Nat → Except GoErr (Nat × Nat)
  range : String → Point → Point → Except GoErr Range

/-- `source.ParseModHandle`: `Parse` yields the parsed file and its
column mapper (the unused third result is dropped). -/
structure ParseModHandle where
  parse : Except GoErr (ModFile × ColumnMapper)

/-- `source.ModTidyHandle`: `Tidy` yields the analysis errors. -/
structure ModTidyHandle where
  tidy : Except GoErr (List SourceError)

/-- `source.Snapshot`, as the collaborator contract the engine consumes:
`modFile` is `View().ModFile()` (empty means no manifest configured),
`getFile` is `GetFile`, `modTidyHandle` is `ModTidyHandle`, and
`parseModHandle` is `ParseModHandle`. -/
structure Snapshot where
  modFile : String
  getFile : String → Except GoErr FileHandle
  modTidyHandle : Except GoErr ModTidyHandle
  parseModHandle : FileHandle → Except GoErr ParseModHandle

/-! ### String scanning helpers for `ExtractGoCommandError` -/

/-- `strings.Split(s, sep)` for a single-character separator, on character
lists: splits into the (possibly empty) runs between occurrences of `sep`.
`splitOnChar sep []` is `[[]]`, matching Go. -/
def splitOnChar (sep : Char) : List Char → List (List Char)
  | [] => [[]]
  | c :: cs =>
    match splitOnChar sep cs with
    | [] => [[]]
    | g :: gs => if c = sep then [] :: g :: gs else (c :: g) :: gs

/-- The white-space test of `strings.TrimSpace` (ASCII part of
`unicode.IsSpace`). -/
def isSpaceChar (c : Char) : Bool :=
  c = ' ' || c = '\t' || c = '\n' || c = '\x0b' || c = '\x0c' || c = '\r'

/-- `strings.TrimSpace` on character lists. -/
def trimSpace (s : List Char) : List Char :=
  (s.dropWhile isSpaceChar).reverse.dropWhile isSpaceChar |>.reverse

/-- The submatch extraction of `moduleAtVersionRe`, the regex
`(?P<module>.*)@(?P<version>.*)`: on a newline-free segment it matches
exactly when the segment contains `@`, the greedy `module` group taking
everything up to the last `@` and `version` everything after it.
(Go's `.` never matches a newline; the embedding is stated for
newline-free error text.) -/
def splitAtLastAt : List Char → Option (List Char × List Char)
  | [] => none
  | c :: cs =>
    match splitAtLastAt cs with
    | some (p, v) => some (c :: p, v)
    | none => if c = '@' then some (([] : List Char), cs) else none

/-- The token-extraction loop of `ExtractGoCommandError` (lines 142-154):
walks the colon-separated segments, trims each, matches it against
`moduleAtVersionRe`, overwrites the candidate `v` on every match, and
stops at the first candidate accepted by the validator `check`
(`module.Check` of golang.org/x/mod, injected). -/
def extractLoop (check : String → String → Bool) :
    List (List Char) → ModVersion → ModVersion
  | [], v => v
  | s :: rest, v =>
    match splitAtLastAt (trimSpace s) with
    | none => extractLoop check rest v
    | some (p, ver) =>
      let v' : ModVersion := ⟨String.mk p, String.mk ver⟩
      if check v'.path v'.version then v' else extractLoop check rest v'

/-- The full token extraction: split the raw error text on `:` and run the
extraction loop starting from the zero `module.Version`. -/
def extractToken (check : String → String → Bool) (errText : String) :
    ModVersion :=
  extractLoop check (splitOnChar ':' errText.data) ⟨"", ""⟩

/-- Modelled from the spec: the module-path and version syntax validation
(`module.Check` of golang.org/x/mod, not part of `src/`), used only to
instantiate theorems at concrete inputs.  It accepts a path whose first
path element contains a dot and whose characters are path-safe, together
with a `v`-prefixed dotted numeric version. -/
def pathCharOk (c : Char) : Bool :=
  c.isAlphanum || c = '-' || c = '.' || c = '_' || c = '~' || c = '/'

/-- Modelled from the spec: see `pathCharOk`. -/
def moduleCheck (path version : String) : Bool :=
  let firstElem := path.data.takeWhile (fun c => c ≠ '/')
  (!path.data.isEmpty)
    && path.data.all pathCharOk
    && firstElem.any (fun c => c = '.')
    && (match version.data with
        | 'v' :: c :: rest => c.isDigit && rest.all (fun d => d.isDigit || d = '.')
        | _ => false)

/-! ### The operations of `diagnostics.go` -/

/-- `sameDiagnostic` (line 125): the join key between an externally
supplied protocol diagnostic and an internally computed analysis error. -/
def sameDiagnostic (d : ProtoDiagnostic) (e : SourceError) : Bool :=
  d.message == e.message && CompareRange d.range e.range == 0 && d.source == e.category

/-- The per-error conversion inside the loop of `Diagnostics`
(lines 51-61): message, range and source are copied, severity is `error`
exactly for the `"syntax"` category and `warning` otherwise. -/
def convertDiag (e : SourceError) : SourceDiagnostic :=
  { message := e.message
    range := e.range
    severity := if e.category = "syntax" then .error else .warning
    source := e.category }

/-- `reports[fh.Identity()] = append(reports[fh.Identity()], diag)` on the
association-list embedding of the Go `map`: append to the entry of an
existing key, or add a fresh singleton entry. -/
def insertAppend {α : Type} : List (String × List α) → String → α →
    List (String × List α)
  | [], k, v => [(k, [v])]
  | (k', vs) :: rest, k, v =>
    if k = k' then (k', vs ++ [v]) :: rest else (k', vs) :: insertAppend rest k v

/-- The error-reporting loop of `Diagnostics` (lines 51-67): resolves each
error's `URI` to a file handle (propagating failure) and appends the
converted diagnostic under that handle's identity. -/
def diagLoop (s : Snapshot) :
    List SourceError → List (String × List SourceDiagnostic) →
    Except GoErr (List (String × List SourceDiagnostic))
  | [], reports => .ok reports
  | e :: rest, reports =>
    match s.getFile e.uri with
    | .error err => .error err
    | .ok fh => diagLoop s rest (insertAppend reports fh.ident (convertDiag e))

/-- `Diagnostics` (lines 24-69).  A Go `nil` map result is embedded as the
empty association list. -/
def Diagnostics (s : Snapshot) :
    Except GoErr (List (String × List SourceDiagnostic)) :=
  if s.modFile = "" then .ok []
  else
    match s.getFile s.modFile with
    | .error err => .error err
    | .ok fh =>
      match s.modTidyHandle with
      | .error err =>
        if err = .tmpModfileUnsupported then .ok [] else .error err
      | .ok mth =>
        match mth.tidy with
        | .error err => .error err
        | .ok diagnostics => diagLoop s diagnostics [(fh.ident, [])]

/-- The message-keyed index of `SuggestedFixes` (lines 83-89), embedded as
a function from message text to the errors carrying it, in analysis order.
(The Go code's `if errorsMap[e.Message] == nil` initialisation is a
semantic no-op: `nil` and the empty slice append identically.) -/
def buildErrorsMap (es : List SourceError) : String → List SourceError :=
  es.foldl
    (fun m e msg => if msg = e.message then m msg ++ [e] else m msg)
    (fun _ => [])

/-- Error-propagating map over a list, embedding a Go `for` loop whose body
may `return nil, err`: stops at the first failure. -/
def mapE {α β : Type} (f : α → Except GoErr β) : List α → Except GoErr (List β)
  | [] => .ok []
  | a :: as =>
    match f a with
    | .error e => .error e
    | .ok b =>
      match mapE f as with
      | .error e => .error e
      | .ok bs => .ok (b :: bs)

/-- The inner edit-building loop of `SuggestedFixes` (lines 103-117): each
touched file is resolved to its current handle (propagating failure) and
turned into a versioned document change. -/
def buildEdits (s : Snapshot) : List (String × List TextEdit) →
    Except GoErr (List TextDocumentEdit)
  | [] => .ok []
  | (uri, edits) :: rest =>
    match s.getFile uri with
    | .error err => .error err
    | .ok fh =>
      match buildEdits s rest with
      | .error err => .error err
      | .ok tail =>
        .ok ({ textDocument := { version := fh.version, uri := fh.uri }
               edits := edits } :: tail)

/-- Construction of one code action from a matched diagnostic and one of
its error's suggested fixes (lines 96-118). -/
def mkAction (s : Snapshot) (diag : ProtoDiagnostic) (fix : SuggestedFix) :
    Except GoErr CodeAction :=
  match buildEdits s fix.edits with
  | .error err => .error err
  | .ok dcs =>
    .ok { title := fix.title
          kind := "quickfix"
          diagnostics := [diag]
          edit := { documentChanges := dcs } }

/-- The per-candidate-error body of the action loop (lines 92-120): errors
failing the `sameDiagnostic` join contribute nothing. -/
def actionsForError (s : Snapshot) (diag : ProtoDiagnostic) (e : SourceError) :
    Except GoErr (List CodeAction) :=
  if sameDiagnostic diag e then mapE (mkAction s diag) e.suggestedFixes
  else .ok []

/-- The per-input-diagnostic body of the action loop (lines 91-121):
candidates are looked up by message, then joined. -/
def actionsForDiag (s : Snapshot) (em : String → List SourceError)
    (diag : ProtoDiagnostic) : Except GoErr (List CodeAction) :=
  match mapE (actionsForError s diag) (em diag.message) with
  | .error err => .error err
  | .ok ls => .ok ls.flatten

/-- `SuggestedFixes` (lines 71-123). -/
def SuggestedFixes (s : Snapshot) (diags : List ProtoDiagnostic) :
    Except GoErr (List CodeAction) :=
  match s.modTidyHandle with
  | .error err =>
    if err = .tmpModfileUnsupported then .ok [] else .error err
  | .ok mth =>
    match mth.tidy with
    | .error err => .error err
    | .ok diagnostics =>
      let em := buildErrorsMap diagnostics
      match mapE (actionsForDiag s em) diags with
      | .error err => .error err
      | .ok ls => .ok ls.flatten

/-- The outcome type of `ExtractGoCommandError`: a hard collaborator
failure, or the expected `fmt.Errorf("no diagnostics for %v", loadErr)`
carrying the original error text. -/
inductive LocErr where
  | hard (e : GoErr)
  | noDiagnostics (loadErr : String)
deriving DecidableEq, Repr

/-- `rangeFromPositions` (lines 197-214): convert both byte offsets through
the mapper's converter into points, then map the span to a protocol
range. -/
def rangeFromPositions (uri : String) (m : ColumnMapper) (s e : Nat) :
    Except GoErr Range :=
  match m.toPosition s with
  | .error err => .error err
  | .ok (l1, c1) =>
    match m.toPosition e with
    | .error err => .error err
    | .ok (l2, c2) => m.range uri ⟨l1, c1, s⟩ ⟨l2, c2, e⟩

/-- The local `toDiagnostic` closure (lines 163-173): anchor the original
error text at the statement's range with severity `Error`; the `Source`
field is never set and stays at its zero value. -/
def toDiagnostic (fh : FileHandle) (m : ColumnMapper) (loadErr : String)
    (line : Line) : Except LocErr SourceDiagnostic :=
  match rangeFromPositions fh.uri m line.startByte line.endByte with
  | .error err => .error (.hard err)
  | .ok rng =>
    .ok { message := loadErr, range := rng, severity := .error, source := "" }

/-- `ExtractGoCommandError` (lines 133-195), with the module validator
`check` injected (`module.Check` of golang.org/x/mod): extract a
`module@version` token from the raw error text, then anchor the error at
the first `require`, else `exclude`, else `replace` statement equal to the
token. -/
def ExtractGoCommandError (check : String → String → Bool) (s : Snapshot)
    (fh : FileHandle) (loadErr : String) : Except LocErr SourceDiagnostic :=
  let v := extractToken check loadErr
  match s.parseModHandle fh with
  | .error err => .error (.hard err)
  | .ok pmh =>
    match pmh.parse with
    | .error err => .error (.hard err)
    | .ok (parsed, m) =>
      match parsed.require.find? (fun req => req.mod == v) with
      | some req => toDiagnostic fh m loadErr req.stx
      | none =>
        match parsed.exclude.find? (fun ex => ex.mod == v) with
        | some ex => toDiagnostic fh m loadErr ex.stx
        | none =>
          match parsed.replace.find? (fun rep => rep.new == v || rep.old == v) with
          | some rep => toDiagnostic fh m loadErr rep.stx
          | none => .error (.noDiagnostics loadErr)

/-! ### Specification-side derived functions -/

/-- The `module@version` candidates produced, in order, by the
segment-scanning stage: one candidate per colon-segment whose trimmed text
matches `moduleAtVersionRe`. -/
def segCandidates (segs : List (List Char)) : List ModVersion :=
  segs.filterMap fun s =>
    (splitAtLastAt (trimSpace s)).map fun pv =>
      (⟨String.mk pv.1, String.mk pv.2⟩ : ModVersion)

/-- All `module@version` candidates of a raw error text, in segment
order. -/
def tokenCandidates (errText : String) : List ModVersion :=
  segCandidates (splitOnChar ':' errText.data)

/-- The per-error contribution to the report list keyed by identity `k`:
the diagnostics of the errors whose `URI` resolves to a handle with that
identity, in analysis order. -/
def contrib (s : Snapshot) (k : String) (es : List SourceError) :
    List SourceDiagnostic :=
  es.filterMap fun e =>
    match s.getFile e.uri with
    | .ok fh => if fh.ident = k then some (convertDiag e) else none
    | .error _ => none

/-- The keys of an association-list report map. -/
def keysOf {α : Type} (r : List (String × List α)) : List String :=
  r.map Prod.fst

/-- Association-list lookup with the empty list as default (a Go map read
of a missing key). -/
def lookupD {α : Type} (k : String) : List (String × List α) → List α
  | [] => []
  | (k', vs) :: rest => if k = k' then vs else lookupD k rest

/-- The list carried by a successful list-valued `Except`, and the empty
list on failure. -/
def exList {β : Type} : Except GoErr (List β) → List β
  | .ok l => l
  | .error _ => []

/-! ### Concrete instances used to instantiate the theorems -/

/-- A concrete range. -/
def rng0 : Range := ⟨⟨0, 0⟩, ⟨0, 5⟩⟩

/-- Another concrete range, different from `rng0`. -/
def rng1 : Range := ⟨⟨1, 0⟩, ⟨1, 7⟩⟩

/-- The manifest's own file handle. -/
def wFh : FileHandle := ⟨"id.gomod.v1", 1, "file.gomod"⟩

/-- A second file handle. -/
def wFh2 : FileHandle := ⟨"id.other.v2", 2, "file.other"⟩

/-- A suggested fix touching the manifest. -/
def wFix : SuggestedFix := ⟨"remove dependency", [("file.gomod", [])]⟩

/-- A suggested fix touching a file that cannot be resolved. -/
def wFixBad : SuggestedFix := ⟨"broken fix", [("file.missing", [])]⟩

/-- An analysis error carrying `wFix`. -/
def wErr1 : SourceError :=
  ⟨"unused dependency", rng0, "go mod tidy", "file.gomod", [wFix]⟩

/-- A second analysis error, reported against the second file. -/
def wErr2 : SourceError :=
  ⟨"syntax error", rng1, "syntax", "file.other", []⟩

/-- An analysis error carrying the unresolvable fix `wFixBad`. -/
def wErrBad : SourceError :=
  ⟨"bad fix", rng1, "go mod tidy", "file.gomod", [wFixBad]⟩

/-- The diagnostic a client would re-present for `wErr1`. -/
def wD1 : ProtoDiagnostic := ⟨rng0, .warning, "go mod tidy", "unused dependency"⟩

/-- The diagnostic a client would re-present for `wErrBad`. -/
def wDBad : ProtoDiagnostic := ⟨rng1, .warning, "go mod tidy", "bad fix"⟩

/-- The file-resolution collaborator of the concrete snapshots. -/
def wGetFile : String → Except GoErr FileHandle := fun u =>
  if u = "file.gomod" then .ok wFh
  else if u = "file.other" then .ok wFh2
  else .error (.msg "no such file")

/-- A concrete snapshot whose tidy analysis reports `wErr1` and `wErr2`. -/
def wSnap : Snapshot :=
  ⟨"file.gomod", wGetFile, .ok ⟨.ok [wErr1, wErr2]⟩, fun _ => .error (.msg "no parse")⟩

/-- A concrete snapshot whose tidy analysis reports the error with the
unresolvable fix. -/
def wSnapBad : Snapshot :=
  ⟨"file.gomod", wGetFile, .ok ⟨.ok [wErrBad]⟩, fun _ => .error (.msg "no parse")⟩

/-- A column mapper that maps byte offset `o` to line `0`, column `o`. -/
def wMapper : ColumnMapper :=
  ⟨fun o => .ok (0, o), fun _ p q => .ok ⟨⟨p.line, p.col⟩, ⟨q.line, q.col⟩⟩⟩

/-- The extracted token of the spec's example error text. -/
def wTok : ModVersion := ⟨"example.com", "v1.2.2"⟩

/-- A parsed modfile in which both a `require` and a `replace` statement
reference `wTok`. -/
def wModFile : ModFile :=
  ⟨[⟨wTok, ⟨10, 30⟩⟩], [], [⟨wTok, ⟨"local.example/fork", "v0.0.1"⟩, ⟨40, 60⟩⟩]⟩

/-- A parsed modfile mentioning only an unrelated module. -/
def wModFileOther : ModFile :=
  ⟨[⟨⟨"other.org/pkg", "v2.0.0"⟩, ⟨10, 30⟩⟩], [], []⟩

/-- A snapshot whose manifest parses to `wModFile`. -/
def wSnapParse : Snapshot :=
  ⟨"file.gomod", wGetFile, .ok ⟨.ok []⟩, fun _ => .ok ⟨.ok (wModFile, wMapper)⟩⟩

/-- A snapshot whose manifest parses to `wModFileOther`. -/
def wSnapParseOther : Snapshot :=
  ⟨"file.gomod", wGetFile, .ok ⟨.ok []⟩, fun _ => .ok ⟨.ok (wModFileOther, wMapper)⟩⟩

/-- The spec's example raw error text. -/
def wErrText : String :=
  "go: example.com@v1.2.2: reading example.com/@v/v1.2.2.mod: no such file or directory"

/-- A parsed modfile whose only statement is an `exclude` of `wTok`. -/
def wModFileExc : ModFile := ⟨[], [⟨wTok, ⟨15, 25⟩⟩], []⟩

/-- A parsed modfile whose only statement is a `replace` whose new module
is `wTok`. -/
def wModFileRep : ModFile :=
  ⟨[], [], [⟨⟨"local.example/fork", "v0.0.1"⟩, wTok, ⟨40, 60⟩⟩]⟩

/-- A snapshot whose manifest parses to `wModFileExc`. -/
def wSnapParseExc : Snapshot :=
  ⟨"file.gomod", wGetFile, .ok ⟨.ok []⟩, fun _ => .ok ⟨.ok (wModFileExc, wMapper)⟩⟩

/-- A snapshot whose manifest parses to `wModFileRep`. -/
def wSnapParseRep : Snapshot :=
  ⟨"file.gomod", wGetFile, .ok ⟨.ok []⟩, fun _ => .ok ⟨.ok (wModFileRep, wMapper)⟩⟩

/-- The protocol range of the matching `require` statement under
`wMapper`. -/
def wRng : Range := ⟨⟨0, 10⟩, ⟨0, 30⟩⟩

/-- A parsed modfile whose only statement is a `require` of a module whose
path fails module validation (`foo` has no dot in its first path element);
the modfile parser accepts such statements. -/
def wModFileFoo : ModFile := ⟨[⟨⟨"foo", "v1.0.0"⟩, ⟨10, 30⟩⟩], [], []⟩

/-- A snapshot whose manifest parses to `wModFileFoo`. -/
def wSnapParseFoo : Snapshot :=
  ⟨"file.gomod", wGetFile, .ok ⟨.ok []⟩, fun _ => .ok ⟨.ok (wModFileFoo, wMapper)⟩⟩

/-- A raw error text all of whose `module@version` candidates fail
validation. -/
def wErrTextFoo : String := "go: foo@v1.0.0: malformed module path"

/-- The diagnostic `ExtractGoCommandError` produces on `wSnapParse` for the
example error text. -/
def wDiagOut : SourceDiagnostic := ⟨wErrText, wRng, .error, ""⟩

/-- A snapshot with no manifest configured. -/
def wSnapNoMod : Snapshot :=
  ⟨"", wGetFile, .ok ⟨.ok []⟩, fun _ => .error (.msg "no parse")⟩

/-- A snapshot whose manifest file cannot be resolved. -/
def wSnapGetFileErr : Snapshot :=
  ⟨"file.gomod", fun _ => .error (.msg "boom"), .ok ⟨.ok []⟩,
   fun _ => .error (.msg "no parse")⟩

/-- A snapshot whose toolchain lacks the tmp-modfile capability. -/
def wSnapUnsupported : Snapshot :=
  ⟨"file.gomod", wGetFile, .error .tmpModfileUnsupported,
   fun _ => .error (.msg "no parse")⟩

/-- A snapshot whose tidy handle fails with an ordinary error. -/
def wSnapMthErr : Snapshot :=
  ⟨"file.gomod", wGetFile, .error (.msg "mth failed"),
   fun _ => .error (.msg "no parse")⟩

/-- A snapshot whose tidy analysis itself fails. -/
def wSnapTidyErr : Snapshot :=
  ⟨"file.gomod", wGetFile, .ok ⟨.error (.msg "tidy failed")⟩,
   fun _ => .error (.msg "no parse")⟩

/-- A snapshot with no manifest configured whose tidy collaborator reports
the capability gap, as the spec assumes for that configuration. -/
def wSnapNoModUnsupported : Snapshot :=
  ⟨"", wGetFile, .error .tmpModfileUnsupported, fun _ => .error (.msg "no parse")⟩

/-- The report map `Diagnostics` produces on `wSnap`. -/
def wReports : List (String × List SourceDiagnostic) :=
  [("id.gomod.v1", [convertDiag wErr1]), ("id.other.v2", [convertDiag wErr2])]

/-- The code action `SuggestedFixes` produces on `wSnap` for `wD1`. -/
def wAction : CodeAction :=
  ⟨"remove dependency", "quickfix", [wD1], ⟨[⟨⟨1, "file.gomod"⟩, []⟩]⟩⟩

/-! ## Lemmas: comparisons and the same-diagnostic join -/

theorem comparePosition_eq_zero_iff (a b : Pos) :
    ComparePosition a b = 0 ↔ a = b := by
  cases a with
  | mk al ac =>
    cases b with
    | mk bl bc =>
      unfold ComparePosition
      dsimp only
      split_ifs <;> simp_all [Pos.mk.injEq] <;> omega

theorem compareRange_eq_zero_iff (a b : Range) :
    CompareRange a b = 0 ↔ a = b := by
  cases a with
  | mk as ae =>
    cases b with
    | mk bs be =>
      unfold CompareRange
      dsimp only
      split_ifs with h
      · constructor
        · intro hc; exact absurd hc h
        · intro hc
          injection hc with h1 h2
          subst h1
          simp [comparePosition_eq_zero_iff] at h
      · rw [not_not, comparePosition_eq_zero_iff] at h
        subst h
        rw [comparePosition_eq_zero_iff]
        constructor
        · intro hc; rw [hc]
        · intro hc; injection hc

theorem sameDiagnostic_iff (d : ProtoDiagnostic) (e : SourceError) :
    sameDiagnostic d e = true ↔
      d.message = e.message ∧ d.range = e.range ∧ d.source = e.category := by
  unfold sameDiagnostic
  simp [Bool.and_eq_true, compareRange_eq_zero_iff, and_assoc]

/-! ## Lemmas: the token-extraction pipeline -/

theorem segCandidates_cons_none (s : List Char) (rest : List (List Char))
    (h : splitAtLastAt (trimSpace s) = none) :
    segCandidates (s :: rest) = segCandidates rest := by
  simp [segCandidates, List.filterMap_cons, h]

theorem segCandidates_cons_some (s : List Char) (rest : List (List Char))
    (p v : List Char) (h : splitAtLastAt (trimSpace s) = some (p, v)) :
    segCandidates (s :: rest) =
      (⟨String.mk p, String.mk v⟩ : ModVersion) :: segCandidates rest := by
  simp [segCandidates, List.filterMap_cons, h]

theorem extractLoop_spec (check : String → String → Bool) :
    ∀ (segs : List (List Char)) (v : ModVersion),
      extractLoop check segs v =
        ((segCandidates segs).find? (fun c => check c.path c.version)).getD
          (((segCandidates segs).getLast?).getD v) := by
  intro segs
  induction segs with
  | nil => intro v; simp [extractLoop, segCandidates]
  | cons s rest ih =>
    intro v
    unfold extractLoop
    cases hsp : splitAtLastAt (trimSpace s) with
    | none =>
      rw [segCandidates_cons_none s rest hsp]
      simp only [ih v]
    | some pv =>
      rw [segCandidates_cons_some s rest pv.1 pv.2 hsp]
      by_cases hchk : check (String.mk pv.1) (String.mk pv.2) = true
      · simp [List.find?_cons, hchk]
      · rw [Bool.not_eq_true] at hchk
        simp only [List.find?_cons, hchk]
        rw [ih ⟨String.mk pv.1, String.mk pv.2⟩]
        cases hfind : (segCandidates rest).find? (fun c => check c.path c.version) with
        | some c => simp
        | none =>
          simp only [Option.getD_none]
          cases hrest : segCandidates rest with
          | nil => simp
          | cons c cs =>
            rw [List.getLast?_cons_cons]
            have : (c :: cs).getLast? ≠ none := by
              simp [List.getLast?_eq_getLast]
            cases hgl : (c :: cs).getLast? with
            | none => exact absurd hgl this
            | some g => simp

/-- The characterization of `extractToken` in terms of the candidate
list. -/
theorem extractToken_spec_aux (check : String → String → Bool)
    (errText : String) :
    extractToken check errText =
      ((tokenCandidates errText).find? (fun c => check c.path c.version)).getD
        (((tokenCandidates errText).getLast?).getD ⟨"", ""⟩) := by
  unfold extractToken tokenCandidates
  exact extractLoop_spec check (splitOnChar ':' errText.data) ⟨"", ""⟩

/-! ## Claim C2: token extraction -/

/-- C2, counterexample to the zero-value clause: on the raw error text
`"foo@bar"` the only colon-segment matches the `module@version` pattern but
fails validation, so no segment yields a valid candidate; yet the extracted
token is `{foo, bar}`, not the zero value claimed. -/
theorem extractToken_zero_value_refuted :
    (∀ c ∈ tokenCandidates "foo@bar", moduleCheck c.path c.version = false)
    ∧ extractToken moduleCheck "foo@bar" = ⟨"foo", "bar"⟩
    ∧ extractToken moduleCheck "foo@bar" ≠ ⟨"", ""⟩ := by decide

/-- C2 (amended): token extraction splits the raw (newline-free) error text
on `:` into trimmed segments, matches each in order against
`<module>@<version>` with the last `@` as separator, accepts a candidate
only if it passes validation and stops at the first valid candidate; if no
segment yields a valid candidate the token is the last pattern-matching
candidate (the zero value only when no segment matched).  In particular the
spec's example error text yields `{example.com, v1.2.2}`. -/
theorem extractToken_characterization (check : String → String → Bool)
    (errText : String) (_hnl : ('\n' : Char) ∉ errText.data)
    (hex : check "example.com" "v1.2.2" = true) :
    (extractToken check errText =
      ((tokenCandidates errText).find? (fun c => check c.path c.version)).getD
        (((tokenCandidates errText).getLast?).getD ⟨"", ""⟩))
    ∧ extractToken check wErrText = wTok := by
  refine ⟨extractToken_spec_aux check errText, ?_⟩
  have hc : tokenCandidates wErrText =
      [wTok, ⟨"reading example.com/", "v/v1.2.2.mod"⟩] := by decide
  rw [extractToken_spec_aux, hc]
  simp [List.find?_cons, wTok, hex]

/-- C2 witness: the amended characterization applied to the validator model
and the spec's example error text. -/
theorem extractToken_characterization_w :
    ('\n' : Char) ∉ wErrText.data
    ∧ moduleCheck "example.com" "v1.2.2" = true
    ∧ extractToken moduleCheck wErrText = wTok :=
  ⟨by decide, by decide,
    (extractToken_characterization moduleCheck wErrText (by decide) (by decide)).2⟩

/-! ## Lemmas: the error locator -/

theorem toDiagnostic_ok_source (fh : FileHandle) (m : ColumnMapper)
    (loadErr : String) (line : Line) (d : SourceDiagnostic)
    (h : toDiagnostic fh m loadErr line = .ok d) : d.source = "" := by
  unfold toDiagnostic at h
  split at h
  · exact Except.noConfusion h
  · injection h with h'
    rw [← h']

theorem extractToken_invalid (check : String → String → Bool) (loadErr : String)
    (hfind : (tokenCandidates loadErr).find? (fun c => check c.path c.version) = none)
    (hzero : check "" "" = false) :
    check (extractToken check loadErr).path (extractToken check loadErr).version
      = false := by
  rw [extractToken_spec_aux check loadErr, hfind]
  simp only [Option.getD_none]
  cases hlast : (tokenCandidates loadErr).getLast? with
  | none => simpa using hzero
  | some g =>
    have hmem : g ∈ (tokenCandidates loadErr).getLast? := Option.mem_def.mpr hlast
    rcases List.mem_getLast?_eq_getLast hmem with ⟨hne, hEq⟩
    have hg : g ∈ tokenCandidates loadErr := hEq ▸ List.getLast_mem hne
    have := List.find?_eq_none.mp hfind g hg
    simpa using this

/-! ## Claim C3: fixed-order statement search -/

/-- C3: with the manifest parsed, the locator anchors at the first
`require` statement equal to the extracted token; failing that, at the
first matching `exclude`; failing that, at the first `replace` whose new
or old module matches.  The returned diagnostic carries the raw error text
unmodified, severity `Error`, and the range obtained from the statement's
byte offsets through the position mapper.  In particular a matching
`require` wins over a matching `replace`. -/
theorem extract_search_order (check : String → String → Bool) (s : Snapshot)
    (fh : FileHandle) (loadErr : String) (pmh : ParseModHandle)
    (parsed : ModFile) (m : ColumnMapper)
    (hpm : s.parseModHandle fh = .ok pmh)
    (hp : pmh.parse = .ok (parsed, m)) :
    (∀ req rng,
      parsed.require.find? (fun r => r.mod == extractToken check loadErr) = some req →
      rangeFromPositions fh.uri m req.stx.startByte req.stx.endByte = .ok rng →
      ExtractGoCommandError check s fh loadErr =
        .ok ⟨loadErr, rng, .error, ""⟩)
    ∧ (∀ ex rng,
      parsed.require.find? (fun r => r.mod == extractToken check loadErr) = none →
      parsed.exclude.find? (fun x => x.mod == extractToken check loadErr) = some ex →
      rangeFromPositions fh.uri m ex.stx.startByte ex.stx.endByte = .ok rng →
      ExtractGoCommandError check s fh loadErr =
        .ok ⟨loadErr, rng, .error, ""⟩)
    ∧ (∀ rep rng,
      parsed.require.find? (fun r => r.mod == extractToken check loadErr) = none →
      parsed.exclude.find? (fun x => x.mod == extractToken check loadErr) = none →
      parsed.replace.find?
        (fun r => r.new == extractToken check loadErr
          || r.old == extractToken check loadErr) = some rep →
      rangeFromPositions fh.uri m rep.stx.startByte rep.stx.endByte = .ok rng →
      ExtractGoCommandError check s fh loadErr =
        .ok ⟨loadErr, rng, .error, ""⟩) := by
  refine ⟨?_, ?_, ?_⟩
  · intro req rng hfind hrng
    simp only [ExtractGoCommandError, hpm, hp, hfind, toDiagnostic, hrng]
  · intro ex rng hreq hfind hrng
    simp only [ExtractGoCommandError, hpm, hp, hreq, hfind, toDiagnostic, hrng]
  · intro rep rng hreq hexc hfind hrng
    simp only [ExtractGoCommandError, hpm, hp, hreq, hexc, hfind, toDiagnostic, hrng]

/-- C3 witness: on a manifest where both a `require` and a `replace`
statement reference the extracted token, the diagnostic anchors at the
`require` statement; `exclude`-only and `replace`-only manifests anchor at
those statements. -/
theorem extract_search_order_w :
    ExtractGoCommandError moduleCheck wSnapParse wFh wErrText = .ok wDiagOut
    ∧ ExtractGoCommandError moduleCheck wSnapParseExc wFh wErrText =
        .ok ⟨wErrText, ⟨⟨0, 15⟩, ⟨0, 25⟩⟩, .error, ""⟩
    ∧ ExtractGoCommandError moduleCheck wSnapParseRep wFh wErrText =
        .ok ⟨wErrText, ⟨⟨0, 40⟩, ⟨0, 60⟩⟩, .error, ""⟩ :=
  ⟨(extract_search_order moduleCheck wSnapParse wFh wErrText _ wModFile wMapper
      rfl rfl).1 ⟨wTok, ⟨10, 30⟩⟩ wRng (by decide) rfl,
   (extract_search_order moduleCheck wSnapParseExc wFh wErrText _ wModFileExc wMapper
      rfl rfl).2.1 ⟨wTok, ⟨15, 25⟩⟩ ⟨⟨0, 15⟩, ⟨0, 25⟩⟩ (by decide) (by decide) rfl,
   (extract_search_order moduleCheck wSnapParseRep wFh wErrText _ wModFileRep wMapper
      rfl rfl).2.2 ⟨⟨"local.example/fork", "v0.0.1"⟩, wTok, ⟨40, 60⟩⟩ ⟨⟨0, 40⟩, ⟨0, 60⟩⟩
      (by decide) (by decide) (by decide) rfl⟩

/-! ## Claim C4: the no-match outcome -/

/-- C4, counterexample to the unconditional no-valid-token clause: the
error text `"go: foo@v1.0.0: malformed module path"` contains no
syntactically valid `module@version` token, yet against a manifest holding
the (parser-accepted, validation-failing) statement `require foo v1.0.0`
the locator returns an anchored diagnostic, not the no-derivable outcome:
the invalid candidate left in `v` by the extraction loop coincides with
that statement. -/
theorem extract_no_match_refuted :
    (∀ c ∈ tokenCandidates wErrTextFoo, moduleCheck c.path c.version = false)
    ∧ ExtractGoCommandError moduleCheck wSnapParseFoo wFh wErrTextFoo =
        .ok ⟨wErrTextFoo, wRng, .error, ""⟩ :=
  ⟨by decide, by rfl⟩

/-- C4 (amended): with the manifest parsed, if no `require`, `exclude` or
`replace` statement matches the extracted token, the locator fails with the
expected no-diagnostics outcome carrying the original error text; in
particular this is the outcome for every error string yielding no valid
`module@version` token, provided the manifest's statements all pass module
validation (so that the leftover invalid token cannot coincide with any of
them). -/
theorem extract_no_match (check : String → String → Bool) (s : Snapshot)
    (fh : FileHandle) (loadErr : String) (pmh : ParseModHandle)
    (parsed : ModFile) (m : ColumnMapper)
    (hpm : s.parseModHandle fh = .ok pmh)
    (hp : pmh.parse = .ok (parsed, m)) :
    ((parsed.require.find? (fun r => r.mod == extractToken check loadErr) = none) →
     (parsed.exclude.find? (fun x => x.mod == extractToken check loadErr) = none) →
     (parsed.replace.find?
        (fun r => r.new == extractToken check loadErr
          || r.old == extractToken check loadErr) = none) →
     ExtractGoCommandError check s fh loadErr = .error (.noDiagnostics loadErr))
    ∧ ((tokenCandidates loadErr).find? (fun c => check c.path c.version) = none →
       check "" "" = false →
       (∀ req ∈ parsed.require, check req.mod.path req.mod.version = true) →
       (∀ ex ∈ parsed.exclude, check ex.mod.path ex.mod.version = true) →
       (∀ rep ∈ parsed.replace,
          check rep.old.path rep.old.version = true
          ∧ check rep.new.path rep.new.version = true) →
       ExtractGoCommandError check s fh loadErr = .error (.noDiagnostics loadErr)) := by
  have base : ∀ _hreq : parsed.require.find?
        (fun r => r.mod == extractToken check loadErr) = none,
      ∀ _hexc : parsed.exclude.find?
        (fun x => x.mod == extractToken check loadErr) = none,
      ∀ _hrep : parsed.replace.find?
        (fun r => r.new == extractToken check loadErr
          || r.old == extractToken check loadErr) = none,
      ExtractGoCommandError check s fh loadErr = .error (.noDiagnostics loadErr) := by
    intro hreq hexc hrep
    simp only [ExtractGoCommandError, hpm, hp, hreq, hexc, hrep]
  refine ⟨base, ?_⟩
  intro hfind hzero hreqv hexcv hrepv
  have hbad := extractToken_invalid check loadErr hfind hzero
  have hne : ∀ w : ModVersion,
      check w.path w.version = true → (w == extractToken check loadErr) = false := by
    intro w hw
    rw [beq_eq_false_iff_ne]
    intro hEq
    rw [hEq] at hw
    rw [hw] at hbad
    exact Bool.noConfusion hbad
  refine base ?_ ?_ ?_
  · rw [List.find?_eq_none]
    intro r hr
    simp [hne r.mod (hreqv r hr)]
  · rw [List.find?_eq_none]
    intro x hx
    simp [hne x.mod (hexcv x hx)]
  · rw [List.find?_eq_none]
    intro r hr
    simp [hne r.new (hrepv r hr).2, hne r.old (hrepv r hr).1]

/-- C4 witness: an error text with no valid token, against a manifest whose
only statement references an unrelated module, yields exactly the
no-diagnostics outcome. -/
theorem extract_no_match_w :
    ExtractGoCommandError moduleCheck wSnapParseOther wFh "exit status 1" =
      .error (.noDiagnostics "exit status 1") :=
  (extract_no_match moduleCheck wSnapParseOther wFh "exit status 1" _
    wModFileOther wMapper rfl rfl).2 (by decide) (by decide)
    (by decide) (by decide) (by decide)

/-! ## Claim C10: locator diagnostics carry no source -/

/-- C10: every diagnostic the locator returns has an empty `Source` field,
so under the same-diagnostic equality it can never match an analysis error
whose category is non-empty. -/
theorem extract_source_empty (check : String → String → Bool) (s : Snapshot)
    (fh : FileHandle) (loadErr : String) (d : SourceDiagnostic)
    (hok : ExtractGoCommandError check s fh loadErr = .ok d) :
    d.source = "" ∧ ∀ (p : ProtoDiagnostic) (e : SourceError),
      p.source = d.source → e.category ≠ "" → sameDiagnostic p e = false := by
  have hsrc : d.source = "" := by
    simp only [ExtractGoCommandError] at hok
    split at hok
    · exact Except.noConfusion hok
    · split at hok
      · exact Except.noConfusion hok
      · split at hok
        · exact toDiagnostic_ok_source _ _ _ _ _ hok
        · split at hok
          · exact toDiagnostic_ok_source _ _ _ _ _ hok
          · split at hok
            · exact toDiagnostic_ok_source _ _ _ _ _ hok
            · exact Except.noConfusion hok
  refine ⟨hsrc, ?_⟩
  intro p e hp hcat
  cases hsd : sameDiagnostic p e
  · rfl
  · exfalso
    rcases (sameDiagnostic_iff p e).1 hsd with ⟨_, _, h3⟩
    rw [hp, hsrc] at h3
    exact hcat h3.symm

/-- C10 witness: the concrete locator result on the example snapshot has an
empty source. -/
theorem extract_source_empty_w :
    ExtractGoCommandError moduleCheck wSnapParse wFh wErrText = .ok wDiagOut
    ∧ wDiagOut.source = "" :=
  have h : ExtractGoCommandError moduleCheck wSnapParse wFh wErrText = .ok wDiagOut := by
    rfl
  ⟨h, (extract_source_empty moduleCheck wSnapParse wFh wErrText wDiagOut h).1⟩

/-! ## Lemmas: the report map of `Diagnostics` -/

theorem lookupD_insertAppend_self {α : Type} (r : List (String × List α))
    (k : String) (v : α) :
    lookupD k (insertAppend r k v) = lookupD k r ++ [v] := by
  induction r with
  | nil => simp [insertAppend, lookupD]
  | cons p rest ih =>
    obtain ⟨k', vs⟩ := p
    unfold insertAppend
    by_cases h : k = k'
    · subst h
      simp [lookupD]
    · simp [lookupD, h, ih]

theorem lookupD_insertAppend_ne {α : Type} (r : List (String × List α))
    (k k' : String) (v : α) (h : k' ≠ k) :
    lookupD k' (insertAppend r k v) = lookupD k' r := by
  induction r with
  | nil => simp [insertAppend, lookupD, h]
  | cons p rest ih =>
    obtain ⟨k0, vs⟩ := p
    unfold insertAppend
    by_cases hk : k = k0
    · subst hk
      simp [lookupD, h]
    · by_cases hk' : k' = k0
      · subst hk'
        simp [lookupD, hk]
      · simp [lookupD, hk, hk', ih]

theorem keysOf_insertAppend {α : Type} (r : List (String × List α))
    (k : String) (v : α) :
    keysOf (insertAppend r k v) =
      if k ∈ keysOf r then keysOf r else keysOf r ++ [k] := by
  induction r with
  | nil => simp [insertAppend, keysOf]
  | cons p rest ih =>
    obtain ⟨k0, vs⟩ := p
    unfold insertAppend
    by_cases hk : k = k0
    · subst hk
      simp [keysOf]
    · rw [if_neg hk]
      have h1 : keysOf ((k0, vs) :: insertAppend rest k v) =
          k0 :: keysOf (insertAppend rest k v) := by simp [keysOf]
      rw [h1, ih]
      have h2 : (k ∈ keysOf ((k0, vs) :: rest)) ↔ k ∈ keysOf rest := by
        simp [keysOf, hk]
      by_cases hin : k ∈ keysOf rest
      · rw [if_pos hin, if_pos (h2.mpr hin)]
        simp [keysOf]
      · rw [if_neg hin, if_neg (fun hmm => hin (h2.mp hmm))]
        simp [keysOf]

theorem mem_keysOf_insertAppend {α : Type} (r : List (String × List α))
    (k k' : String) (v : α) :
    k' ∈ keysOf (insertAppend r k v) ↔ k' ∈ keysOf r ∨ k' = k := by
  rw [keysOf_insertAppend]
  split_ifs with hk
  · constructor
    · intro h; exact Or.inl h
    · rintro (h | rfl)
      · exact h
      · exact hk
  · simp [List.mem_append]

theorem nodup_keysOf_insertAppend {α : Type} (r : List (String × List α))
    (k : String) (v : α) (h : (keysOf r).Nodup) :
    (keysOf (insertAppend r k v)).Nodup := by
  rw [keysOf_insertAppend]
  split_ifs with hk
  · exact h
  · simp [List.nodup_append, h, hk]

theorem snd_eq_lookupD {α : Type} :
    ∀ (r : List (String × List α)) (p : String × List α),
      p ∈ r → (keysOf r).Nodup → p.2 = lookupD p.1 r := by
  intro r
  induction r with
  | nil => intro p hp _; cases hp
  | cons q rest ih =>
    intro p hp hnd
    obtain ⟨k0, vs⟩ := q
    rcases List.mem_cons.mp hp with rfl | hmem
    · simp [lookupD]
    · have hnds : (k0 :: keysOf rest).Nodup := by
        have hEq : keysOf ((k0, vs) :: rest) = k0 :: keysOf rest := by simp [keysOf]
        exact hEq ▸ hnd
      have hk0 : k0 ∉ keysOf rest := (List.nodup_cons.mp hnds).1
      have hp1 : p.1 ∈ keysOf rest := List.mem_map_of_mem Prod.fst hmem
      have hne : p.1 ≠ k0 := fun hEq => hk0 (hEq ▸ hp1)
      have hnd' : (keysOf rest).Nodup := (List.nodup_cons.mp hnds).2
      simp only [lookupD, if_neg hne]
      exact ih p hmem hnd'

theorem contrib_cons_ok (s : Snapshot) (k : String) (e : SourceError)
    (rest : List SourceError) (fh : FileHandle)
    (h : s.getFile e.uri = .ok fh) :
    contrib s k (e :: rest) =
      if fh.ident = k then convertDiag e :: contrib s k rest
      else contrib s k rest := by
  unfold contrib
  rw [List.filterMap_cons]
  simp only [h]
  split_ifs with hid <;> simp [contrib]

theorem diagLoop_ok_getFile (s : Snapshot) :
    ∀ (es : List SourceError) (r r' : List (String × List SourceDiagnostic)),
      diagLoop s es r = .ok r' → ∀ e ∈ es, ∃ fh, s.getFile e.uri = .ok fh := by
  intro es
  induction es with
  | nil => intro r r' _ e he; cases he
  | cons e0 rest ih =>
    intro r r' h e he
    unfold diagLoop at h
    cases hgf : s.getFile e0.uri with
    | error ge => rw [hgf] at h; exact Except.noConfusion h
    | ok fh =>
      rw [hgf] at h
      rcases List.mem_cons.mp he with rfl | hmem
      · exact ⟨fh, hgf⟩
      · exact ih _ r' h e hmem

theorem diagLoop_ok_lookupD (s : Snapshot) :
    ∀ (es : List SourceError) (r r' : List (String × List SourceDiagnostic)),
      diagLoop s es r = .ok r' →
      ∀ k, lookupD k r' = lookupD k r ++ contrib s k es := by
  intro es
  induction es with
  | nil =>
    intro r r' h k
    unfold diagLoop at h
    injection h with h
    subst h
    simp [contrib]
  | cons e rest ih =>
    intro r r' h k
    unfold diagLoop at h
    cases hgf : s.getFile e.uri with
    | error ge => rw [hgf] at h; exact Except.noConfusion h
    | ok fh =>
      rw [hgf] at h
      have hrec := ih _ r' h k
      rw [hrec, contrib_cons_ok s k e rest fh hgf]
      by_cases hid : fh.ident = k
      · rw [if_pos hid, hid, lookupD_insertAppend_self]
        simp
      · rw [if_neg hid, lookupD_insertAppend_ne _ _ _ _ (fun hEq => hid hEq.symm)]

theorem diagLoop_ok_keys (s : Snapshot) :
    ∀ (es : List SourceError) (r r' : List (String × List SourceDiagnostic)),
      diagLoop s es r = .ok r' →
      ∀ k, k ∈ keysOf r' ↔ k ∈ keysOf r ∨ contrib s k es ≠ [] := by
  intro es
  induction es with
  | nil =>
    intro r r' h k
    unfold diagLoop at h
    injection h with h
    subst h
    simp [contrib]
  | cons e rest ih =>
    intro r r' h k
    unfold diagLoop at h
    cases hgf : s.getFile e.uri with
    | error ge => rw [hgf] at h; exact Except.noConfusion h
    | ok fh =>
      rw [hgf] at h
      have hrec := ih _ r' h k
      rw [hrec, mem_keysOf_insertAppend, contrib_cons_ok s k e rest fh hgf]
      by_cases hid : fh.ident = k
      · subst hid
        simp
      · have : ¬(k = fh.ident) := fun hEq => hid hEq.symm
        simp [hid, this]

theorem diagLoop_ok_nodup (s : Snapshot) :
    ∀ (es : List SourceError) (r r' : List (String × List SourceDiagnostic)),
      diagLoop s es r = .ok r' → (keysOf r).Nodup → (keysOf r').Nodup := by
  intro es
  induction es with
  | nil =>
    intro r r' h hnd
    unfold diagLoop at h
    injection h with h
    subst h
    exact hnd
  | cons e rest ih =>
    intro r r' h hnd
    unfold diagLoop at h
    cases hgf : s.getFile e.uri with
    | error ge => rw [hgf] at h; exact Except.noConfusion h
    | ok fh =>
      rw [hgf] at h
      exact ih _ r' h (nodup_keysOf_insertAppend r fh.ident (convertDiag e) hnd)

theorem lookupD_single {α : Type} (k k0 : String) :
    lookupD k [(k0, ([] : List α))] = [] := by
  unfold lookupD
  split_ifs <;> rfl

theorem diagnostics_ok_loop (s : Snapshot) (fh : FileHandle)
    (mth : ModTidyHandle) (errs : List SourceError)
    (reports : List (String × List SourceDiagnostic))
    (hmf : s.modFile ≠ "") (hgf : s.getFile s.modFile = .ok fh)
    (hmth : s.modTidyHandle = .ok mth) (ht : mth.tidy = .ok errs)
    (hok : Diagnostics s = .ok reports) :
    diagLoop s errs [(fh.ident, [])] = .ok reports := by
  simp only [Diagnostics, if_neg hmf, hgf, hmth, ht] at hok
  exact hok

/-! ## Claim C5: grouping completeness -/

/-- C5: on a configured, supported manifest, a successful `Diagnostics` run
produces a report map whose keys are duplicate-free, always include the
manifest's own file identity, and are exactly that identity plus the
identities the analysis errors resolve to; each file's list is the in-order
sequence of converted errors for that file. -/
theorem diagnostics_grouping (s : Snapshot) (fh : FileHandle)
    (mth : ModTidyHandle) (errs : List SourceError)
    (reports : List (String × List SourceDiagnostic))
    (hmf : s.modFile ≠ "") (hgf : s.getFile s.modFile = .ok fh)
    (hmth : s.modTidyHandle = .ok mth) (ht : mth.tidy = .ok errs)
    (hok : Diagnostics s = .ok reports) :
    (keysOf reports).Nodup
    ∧ fh.ident ∈ keysOf reports
    ∧ (∀ k, k ∈ keysOf reports ↔
        k = fh.ident ∨ ∃ e ∈ errs, ∃ fh', s.getFile e.uri = .ok fh' ∧ fh'.ident = k)
    ∧ (∀ p ∈ reports, p.2 = contrib s p.1 errs) := by
  have hloop := diagnostics_ok_loop s fh mth errs reports hmf hgf hmth ht hok
  have hkeys0 : keysOf [(fh.ident, ([] : List SourceDiagnostic))] = [fh.ident] := by
    simp [keysOf]
  have hnd : (keysOf reports).Nodup := by
    refine diagLoop_ok_nodup s errs _ reports hloop ?_
    rw [hkeys0]
    exact List.nodup_singleton _
  have hcmem : ∀ k, contrib s k errs ≠ [] ↔
      ∃ e ∈ errs, ∃ fh', s.getFile e.uri = .ok fh' ∧ fh'.ident = k := by
    intro k
    unfold contrib
    rw [Ne, List.filterMap_eq_nil_iff]
    constructor
    · intro h
      push_neg at h
      rcases h with ⟨e, he, hne⟩
      refine ⟨e, he, ?_⟩
      cases hgf' : s.getFile e.uri with
      | error ge =>
        rw [hgf'] at hne
        exact absurd rfl hne
      | ok fh' =>
        simp only [hgf'] at hne
        by_cases hid : fh'.ident = k
        · exact ⟨fh', rfl, hid⟩
        · rw [if_neg hid] at hne
          exact absurd rfl hne
    · rintro ⟨e, he, fh', hgf', hid⟩ hall
      have := hall e he
      simp only [hgf', if_pos hid] at this
      exact Option.noConfusion this
  have hkmem := diagLoop_ok_keys s errs _ reports hloop
  refine ⟨hnd, ?_, ?_, ?_⟩
  · rw [hkmem fh.ident, hkeys0]
    exact Or.inl (List.mem_singleton.mpr rfl)
  · intro k
    rw [hkmem k, hkeys0, List.mem_singleton, hcmem k]
  · intro p hp
    have hl := diagLoop_ok_lookupD s errs _ reports hloop p.1
    rw [lookupD_single, List.nil_append] at hl
    rw [snd_eq_lookupD reports p hp hnd, hl]

/-- C5 witness: on the concrete snapshot with one error against the
manifest and one against a second file, the report map has exactly the two
identities as keys, no duplicates, and the manifest's identity present. -/
theorem diagnostics_grouping_w :
    Diagnostics wSnap = .ok wReports
    ∧ (keysOf wReports).Nodup
    ∧ wFh.ident ∈ keysOf wReports :=
  have h : Diagnostics wSnap = .ok wReports := by rfl
  have t := diagnostics_grouping wSnap wFh ⟨.ok [wErr1, wErr2]⟩ [wErr1, wErr2]
    wReports (by decide) rfl rfl rfl h
  ⟨h, t.1, t.2.1⟩

/-! ## Claim C8: severity mapping -/

/-- C8: every diagnostic produced by a successful `Diagnostics` run comes
from an analysis error; its source equals that error's category and its
severity is `Error` exactly when the category is `"syntax"`, `Warning`
otherwise. -/
theorem severity_mapping (s : Snapshot) (fh : FileHandle)
    (mth : ModTidyHandle) (errs : List SourceError)
    (reports : List (String × List SourceDiagnostic))
    (hmf : s.modFile ≠ "") (hgf : s.getFile s.modFile = .ok fh)
    (hmth : s.modTidyHandle = .ok mth) (ht : mth.tidy = .ok errs)
    (hok : Diagnostics s = .ok reports) :
    ∀ p ∈ reports, ∀ d ∈ p.2, ∃ e ∈ errs,
      d = convertDiag e ∧ d.source = e.category
      ∧ (d.severity = Severity.error ↔ e.category = "syntax") := by
  have hloop := diagnostics_ok_loop s fh mth errs reports hmf hgf hmth ht hok
  have hnd : (keysOf reports).Nodup := by
    refine diagLoop_ok_nodup s errs _ reports hloop ?_
    simp [keysOf]
  intro p hp d hd
  have hl := diagLoop_ok_lookupD s errs _ reports hloop p.1
  rw [lookupD_single, List.nil_append] at hl
  rw [snd_eq_lookupD reports p hp hnd, hl] at hd
  unfold contrib at hd
  rcases List.mem_filterMap.mp hd with ⟨e, he, hfe⟩
  refine ⟨e, he, ?_⟩
  cases hgf' : s.getFile e.uri with
  | error ge =>
    rw [hgf'] at hfe
    exact Option.noConfusion hfe
  | ok fh' =>
    simp only [hgf'] at hfe
    by_cases hid : fh'.ident = p.1
    · rw [if_pos hid] at hfe
      injection hfe with hfe
      subst hfe
      refine ⟨rfl, rfl, ?_⟩
      unfold convertDiag
      by_cases hc : e.category = "syntax"
      · simp [hc]
      · simp [hc]
    · rw [if_neg hid] at hfe
      exact Option.noConfusion hfe

/-- C8 witness: the `"syntax"`-category error of the concrete snapshot
produces an `Error`-severity diagnostic whose source is that category. -/
theorem severity_mapping_w :
    Diagnostics wSnap = .ok wReports
    ∧ ∃ e ∈ [wErr1, wErr2],
        convertDiag wErr2 = convertDiag e
        ∧ (convertDiag wErr2).source = e.category
        ∧ ((convertDiag wErr2).severity = Severity.error ↔ e.category = "syntax") :=
  have h : Diagnostics wSnap = .ok wReports := by rfl
  ⟨h, severity_mapping wSnap wFh ⟨.ok [wErr1, wErr2]⟩ [wErr1, wErr2] wReports
    (by decide) rfl rfl rfl h ("id.other.v2", [convertDiag wErr2]) (by decide)
    (convertDiag wErr2) (by decide)⟩

/-! ## Claim C7: early exits and error propagation -/

/-- C7: both operations return an empty result without error when no
manifest is configured (for `SuggestedFixes` via the collaborator reporting
the capability gap in that configuration, as the spec assumes) or when the
toolchain reports `ErrTmpModfileUnsupported`; any other failure obtaining
the file handle, the tidy handle, or the analysis result is propagated
unchanged. -/
theorem early_exit (s : Snapshot) (diags : List ProtoDiagnostic)
    (fh : FileHandle) (mth : ModTidyHandle) (e : GoErr) :
    (s.modFile = "" → Diagnostics s = .ok [])
    ∧ (s.modFile ≠ "" → s.getFile s.modFile = .error e → Diagnostics s = .error e)
    ∧ (s.modFile ≠ "" → s.getFile s.modFile = .ok fh →
        s.modTidyHandle = .error .tmpModfileUnsupported → Diagnostics s = .ok [])
    ∧ (s.modFile ≠ "" → s.getFile s.modFile = .ok fh →
        s.modTidyHandle = .error e → e ≠ .tmpModfileUnsupported →
        Diagnostics s = .error e)
    ∧ (s.modFile ≠ "" → s.getFile s.modFile = .ok fh →
        s.modTidyHandle = .ok mth → mth.tidy = .error e → Diagnostics s = .error e)
    ∧ (s.modTidyHandle = .error .tmpModfileUnsupported →
        SuggestedFixes s diags = .ok [])
    ∧ (s.modTidyHandle = .error e → e ≠ .tmpModfileUnsupported →
        SuggestedFixes s diags = .error e)
    ∧ (s.modTidyHandle = .ok mth → mth.tidy = .error e →
        SuggestedFixes s diags = .error e)
    ∧ (s.modFile = "" → s.modTidyHandle = .error .tmpModfileUnsupported →
        SuggestedFixes s diags = .ok []) := by
  refine ⟨?_, ?_, ?_, ?_, ?_, ?_, ?_, ?_, ?_⟩
  · intro h
    simp [Diagnostics, h]
  · intro h1 h2
    simp [Diagnostics, if_neg h1, h2]
  · intro h1 h2 h3
    simp [Diagnostics, if_neg h1, h2, h3]
  · intro h1 h2 h3 h4
    simp [Diagnostics, if_neg h1, h2, h3, h4]
  · intro h1 h2 h3 h4
    simp [Diagnostics, if_neg h1, h2, h3, h4]
  · intro h
    simp [SuggestedFixes, h]
  · intro h1 h2
    simp [SuggestedFixes, h1, h2]
  · intro h1 h2
    simp [SuggestedFixes, h1, h2]
  · intro _ h
    simp [SuggestedFixes, h]

/-- C7 witness: each early-exit and propagation case, at a concrete
snapshot exhibiting it. -/
theorem early_exit_w :
    Diagnostics wSnapNoMod = .ok []
    ∧ Diagnostics wSnapGetFileErr = .error (.msg "boom")
    ∧ Diagnostics wSnapUnsupported = .ok []
    ∧ Diagnostics wSnapMthErr = .error (.msg "mth failed")
    ∧ Diagnostics wSnapTidyErr = .error (.msg "tidy failed")
    ∧ SuggestedFixes wSnapUnsupported [] = .ok []
    ∧ SuggestedFixes wSnapMthErr [] = .error (.msg "mth failed")
    ∧ SuggestedFixes wSnapTidyErr [] = .error (.msg "tidy failed")
    ∧ SuggestedFixes wSnapNoModUnsupported [] = .ok [] :=
  ⟨(early_exit wSnapNoMod [] wFh ⟨.ok []⟩ (.msg "x")).1 rfl,
   (early_exit wSnapGetFileErr [] wFh ⟨.ok []⟩ (.msg "boom")).2.1 (by decide) rfl,
   (early_exit wSnapUnsupported [] wFh ⟨.ok []⟩ (.msg "x")).2.2.1 (by decide) rfl rfl,
   (early_exit wSnapMthErr [] wFh ⟨.ok []⟩ (.msg "mth failed")).2.2.2.1
     (by decide) rfl rfl (by decide),
   (early_exit wSnapTidyErr [] wFh ⟨.error (.msg "tidy failed")⟩
     (.msg "tidy failed")).2.2.2.2.1 (by decide) rfl rfl rfl,
   (early_exit wSnapUnsupported [] wFh ⟨.ok []⟩ (.msg "x")).2.2.2.2.2.1 rfl,
   (early_exit wSnapMthErr [] wFh ⟨.ok []⟩ (.msg "mth failed")).2.2.2.2.2.2.1
     rfl (by decide),
   (early_exit wSnapTidyErr [] wFh ⟨.error (.msg "tidy failed")⟩
     (.msg "tidy failed")).2.2.2.2.2.2.2.1 rfl rfl,
   (early_exit wSnapNoModUnsupported [] wFh ⟨.ok []⟩ (.msg "x")).2.2.2.2.2.2.2.2
     rfl rfl⟩

/-! ## Lemmas: the action loops of `SuggestedFixes` -/

theorem mapE_ok_forall {α β : Type} (f : α → Except GoErr β) :
    ∀ (xs : List α) (ys : List β), mapE f xs = .ok ys →
      ∀ a ∈ xs, ∃ b, f a = .ok b := by
  intro xs
  induction xs with
  | nil => intro ys _ a ha; cases ha
  | cons a0 rest ih =>
    intro ys h a ha
    unfold mapE at h
    cases hf : f a0 with
    | error e => rw [hf] at h; exact Except.noConfusion h
    | ok b =>
      rw [hf] at h
      cases hm : mapE f rest with
      | error e => rw [hm] at h; exact Except.noConfusion h
      | ok bs =>
        rcases List.mem_cons.mp ha with rfl | hmem
        · exact ⟨b, hf⟩
        · exact ih bs hm a hmem

theorem mapE_ok_filterMap {α β : Type} (f : α → Except GoErr β) :
    ∀ (xs : List α) (ys : List β), mapE f xs = .ok ys →
      ys = xs.filterMap (fun a => (f a).toOption) := by
  intro xs
  induction xs with
  | nil =>
    intro ys h
    unfold mapE at h
    injection h with h
    rw [← h, List.filterMap_nil]
  | cons a0 rest ih =>
    intro ys h
    unfold mapE at h
    cases hf : f a0 with
    | error e => rw [hf] at h; exact Except.noConfusion h
    | ok b =>
      simp only [hf] at h
      cases hm : mapE f rest with
      | error e => rw [hm] at h; exact Except.noConfusion h
      | ok bs =>
        simp only [hm] at h
        injection h with h
        rw [← h, List.filterMap_cons, hf]
        simp [Except.toOption, ih bs hm]

theorem mapE_ok_flatten {α β : Type} (f : α → Except GoErr (List β)) :
    ∀ (xs : List α) (ys : List (List β)), mapE f xs = .ok ys →
      ys.flatten = xs.flatMap (fun a => exList (f a)) := by
  intro xs
  induction xs with
  | nil =>
    intro ys h
    unfold mapE at h
    injection h with h
    rw [← h]
    rfl
  | cons a0 rest ih =>
    intro ys h
    unfold mapE at h
    cases hf : f a0 with
    | error e => rw [hf] at h; exact Except.noConfusion h
    | ok b =>
      simp only [hf] at h
      cases hm : mapE f rest with
      | error e => rw [hm] at h; exact Except.noConfusion h
      | ok bs =>
        simp only [hm] at h
        injection h with h
        rw [← h, List.flatMap_cons, List.flatten_cons, ih bs hm, hf]
        rfl

theorem buildEdits_ok_forall (s : Snapshot) :
    ∀ (edits : List (String × List TextEdit)) (l : List TextDocumentEdit),
      buildEdits s edits = .ok l →
      ∀ p ∈ edits, ∃ fh, s.getFile p.1 = .ok fh := by
  intro edits
  induction edits with
  | nil => intro l _ p hp; cases hp
  | cons p0 rest ih =>
    intro l h p hp
    obtain ⟨uri, eds⟩ := p0
    unfold buildEdits at h
    cases hgf : s.getFile uri with
    | error ge => rw [hgf] at h; exact Except.noConfusion h
    | ok fh =>
      rw [hgf] at h
      cases hb : buildEdits s rest with
      | error ge => rw [hb] at h; exact Except.noConfusion h
      | ok tail =>
        rcases List.mem_cons.mp hp with rfl | hmem
        · exact ⟨fh, hgf⟩
        · exact ih tail hb p hmem

theorem mkAction_ok_shape (s : Snapshot) (d : ProtoDiagnostic)
    (fix : SuggestedFix) (a : CodeAction) (h : mkAction s d fix = .ok a) :
    a.title = fix.title ∧ a.kind = "quickfix" ∧ a.diagnostics = [d] := by
  unfold mkAction at h
  cases hb : buildEdits s fix.edits with
  | error ge => rw [hb] at h; exact Except.noConfusion h
  | ok dcs =>
    rw [hb] at h
    injection h with h
    rw [← h]
    exact ⟨rfl, rfl, rfl⟩

theorem mkAction_ok_buildEdits (s : Snapshot) (d : ProtoDiagnostic)
    (fix : SuggestedFix) (a : CodeAction) (h : mkAction s d fix = .ok a) :
    ∃ dcs, buildEdits s fix.edits = .ok dcs := by
  unfold mkAction at h
  cases hb : buildEdits s fix.edits with
  | error ge => rw [hb] at h; exact Except.noConfusion h
  | ok dcs => exact ⟨dcs, rfl⟩

theorem buildErrorsMap_eq_filter (es : List SourceError) (msg : String) :
    buildErrorsMap es msg = es.filter (fun e => e.message == msg) := by
  suffices h : ∀ (es : List SourceError) (m : String → List SourceError),
      (es.foldl (fun m e msg => if msg = e.message then m msg ++ [e] else m msg) m) msg
        = m msg ++ es.filter (fun e => e.message == msg) by
    have := h es (fun _ => [])
    simpa [buildErrorsMap] using this
  intro es
  induction es with
  | nil => intro m; simp
  | cons e rest ih =>
    intro m
    rw [List.foldl_cons, ih]
    by_cases hm : msg = e.message
    · have hb : (e.message == msg) = true := by simp [hm]
      simp [List.filter_cons, hb, if_pos hm]
    · have hb : (e.message == msg) = false := by
        rw [beq_eq_false_iff_ne]
        exact fun hEq => hm hEq.symm
      simp [List.filter_cons, hb, if_neg hm]

theorem except_toOption_eq_some {β : Type} (x : Except GoErr β) (b : β) :
    x.toOption = some b ↔ x = .ok b := by
  cases x <;> simp [Except.toOption]

theorem actionsForError_ok_exList (s : Snapshot) (d : ProtoDiagnostic)
    (e : SourceError) (l : List CodeAction)
    (h : actionsForError s d e = .ok l) :
    l = if sameDiagnostic d e
        then e.suggestedFixes.filterMap (fun fix => (mkAction s d fix).toOption)
        else [] := by
  unfold actionsForError at h
  by_cases hsd : sameDiagnostic d e
  · rw [if_pos hsd] at h
    rw [if_pos hsd]
    exact mapE_ok_filterMap _ _ _ h
  · rw [if_neg hsd] at h
    rw [if_neg hsd]
    injection h with h
    exact h.symm

theorem bind_if_filter {α β : Type} (p : α → Bool) (F : α → List β) :
    ∀ l : List α,
      (l.flatMap fun a => if p a then F a else []) = (l.filter p).flatMap F := by
  intro l
  induction l with
  | nil => rfl
  | cons a rest ih =>
    rw [List.flatMap_cons, List.filter_cons]
    cases hp : p a <;> simp [hp, ih]

theorem filter_sameDiagnostic (d : ProtoDiagnostic) :
    ∀ errs : List SourceError,
      (errs.filter (fun e => e.message == d.message)).filter
          (fun e => sameDiagnostic d e)
        = errs.filter (fun e => sameDiagnostic d e) := by
  intro errs
  induction errs with
  | nil => rfl
  | cons e rest ih =>
    by_cases hsd : sameDiagnostic d e = true
    · have hmsg : (e.message == d.message) = true := by
        rcases (sameDiagnostic_iff d e).1 hsd with ⟨h1, _, _⟩
        simp [h1]
      simp [List.filter_cons, hmsg, hsd, ih]
    · rw [Bool.not_eq_true] at hsd
      by_cases hmsg : (e.message == d.message) = true
      · simp [List.filter_cons, hmsg, hsd, ih]
      · rw [Bool.not_eq_true] at hmsg
        simp [List.filter_cons, hmsg, hsd, ih]

theorem actionsForDiag_ok_eq (s : Snapshot) (em : String → List SourceError)
    (d : ProtoDiagnostic) (l : List CodeAction)
    (h : actionsForDiag s em d = .ok l) :
    l = ((em d.message).filter (fun e => sameDiagnostic d e)).flatMap
      (fun e => e.suggestedFixes.filterMap (fun fix => (mkAction s d fix).toOption)) := by
  unfold actionsForDiag at h
  cases hm : mapE (actionsForError s d) (em d.message) with
  | error ge => rw [hm] at h; exact Except.noConfusion h
  | ok ls =>
    rw [hm] at h
    injection h with h
    rw [← h, mapE_ok_flatten _ _ _ hm, ← bind_if_filter]
    refine List.flatMap_congr ?_
    intro e he
    rcases mapE_ok_forall _ _ _ hm e he with ⟨le, hle⟩
    rw [hle]
    unfold exList
    exact actionsForError_ok_exList s d e le hle

theorem suggestedFixes_ok_eq (s : Snapshot) (diags : List ProtoDiagnostic)
    (mth : ModTidyHandle) (errs : List SourceError) (acts : List CodeAction)
    (hmth : s.modTidyHandle = .ok mth) (ht : mth.tidy = .ok errs)
    (hok : SuggestedFixes s diags = .ok acts) :
    acts = diags.flatMap (fun d =>
      (errs.filter (fun e => sameDiagnostic d e)).flatMap
        (fun e => e.suggestedFixes.filterMap
          (fun fix => (mkAction s d fix).toOption))) := by
  simp only [SuggestedFixes, hmth, ht] at hok
  cases hm : mapE (actionsForDiag s (buildErrorsMap errs)) diags with
  | error ge => rw [hm] at hok; exact Except.noConfusion hok
  | ok ls =>
    rw [hm] at hok
    injection hok with hok
    rw [← hok, mapE_ok_flatten _ _ _ hm]
    refine List.flatMap_congr ?_
    intro d hd
    rcases mapE_ok_forall _ _ _ hm d hd with ⟨ld, hld⟩
    rw [hld]
    unfold exList
    rw [actionsForDiag_ok_eq s (buildErrorsMap errs) d ld hld,
      buildErrorsMap_eq_filter, filter_sameDiagnostic]

theorem suggestedFixes_ok_matched (s : Snapshot) (diags : List ProtoDiagnostic)
    (mth : ModTidyHandle) (errs : List SourceError) (acts : List CodeAction)
    (hmth : s.modTidyHandle = .ok mth) (ht : mth.tidy = .ok errs)
    (hok : SuggestedFixes s diags = .ok acts) :
    ∀ d ∈ diags, ∀ e ∈ errs, sameDiagnostic d e = true →
      ∀ fix ∈ e.suggestedFixes, ∃ a, mkAction s d fix = .ok a := by
  intro d hd e he hsame fix hfix
  simp only [SuggestedFixes, hmth, ht] at hok
  cases hm : mapE (actionsForDiag s (buildErrorsMap errs)) diags with
  | error ge => rw [hm] at hok; exact Except.noConfusion hok
  | ok ls =>
    rcases mapE_ok_forall _ _ _ hm d hd with ⟨ld, hld⟩
    unfold actionsForDiag at hld
    cases hm2 : mapE (actionsForError s d) (buildErrorsMap errs d.message) with
    | error ge => rw [hm2] at hld; exact Except.noConfusion hld
    | ok ls2 =>
      have hmem : e ∈ buildErrorsMap errs d.message := by
        rw [buildErrorsMap_eq_filter]
        refine List.mem_filter.mpr ⟨he, ?_⟩
        rcases (sameDiagnostic_iff d e).1 hsame with ⟨h1, _, _⟩
        simp [h1]
      rcases mapE_ok_forall _ _ _ hm2 e hmem with ⟨le, hle⟩
      unfold actionsForError at hle
      rw [if_pos hsame] at hle
      exact mapE_ok_forall _ _ _ hle fix hfix

theorem actionsForDiag_unmatched (s : Snapshot) (em : String → List SourceError)
    (d : ProtoDiagnostic) (h : ∀ e ∈ em d.message, sameDiagnostic d e = false) :
    actionsForDiag s em d = .ok [] := by
  unfold actionsForDiag
  suffices hs : ∀ xs : List SourceError, (∀ e ∈ xs, sameDiagnostic d e = false) →
      mapE (actionsForError s d) xs = .ok (xs.map fun _ => ([] : List CodeAction)) by
    rw [hs (em d.message) h]
    simp
  intro xs
  induction xs with
  | nil => intro _; rfl
  | cons e rest ih =>
    intro hall
    have he : actionsForError s d e = .ok [] := by
      unfold actionsForError
      rw [if_neg]
      rw [hall e (List.mem_cons_self e rest)]
      exact Bool.false_ne_true
    unfold mapE
    rw [he, ih (fun e' he' => hall e' (List.mem_cons_of_mem e he'))]
    rfl

/-! ## Claim C1: join correctness -/

/-- C1: a successful `SuggestedFixes` call contains an action built from a
fix of error `e` for input diagnostic `d` exactly when `d` is among the
inputs, `e` among the analysis errors, and `d` joins with `e` under the
exact message/range/source equality; changing any one of the three join
fields of a matching diagnostic breaks the join with that error, and a
diagnostic matching no error contributes no action and no failure. -/
theorem suggestedFixes_join (s : Snapshot) (diags : List ProtoDiagnostic)
    (mth : ModTidyHandle) (errs : List SourceError) (acts : List CodeAction)
    (hmth : s.modTidyHandle = .ok mth) (ht : mth.tidy = .ok errs)
    (hok : SuggestedFixes s diags = .ok acts) :
    (∀ a, a ∈ acts ↔ ∃ d ∈ diags, ∃ e ∈ errs, sameDiagnostic d e = true
        ∧ ∃ fix ∈ e.suggestedFixes, mkAction s d fix = .ok a)
    ∧ (∀ (d : ProtoDiagnostic) (e : SourceError), sameDiagnostic d e = true →
        ∀ d' : ProtoDiagnostic,
          d'.message ≠ d.message ∨ d'.range ≠ d.range ∨ d'.source ≠ d.source →
          sameDiagnostic d' e = false)
    ∧ (∀ d ∈ diags, (∀ e ∈ errs, sameDiagnostic d e = false) →
        actionsForDiag s (buildErrorsMap errs) d = .ok []) := by
  refine ⟨?_, ?_, ?_⟩
  · intro a
    rw [suggestedFixes_ok_eq s diags mth errs acts hmth ht hok]
    simp only [List.mem_flatMap, List.mem_filter, List.mem_filterMap,
      except_toOption_eq_some]
    constructor
    · rintro ⟨d, hd, e, ⟨he, hsame⟩, fix, hfix, hmk⟩
      exact ⟨d, hd, e, he, hsame, fix, hfix, hmk⟩
    · rintro ⟨d, hd, e, he, hsame, fix, hfix, hmk⟩
      exact ⟨d, hd, e, ⟨he, hsame⟩, fix, hfix, hmk⟩
  · intro d e hsame d' hdiff
    rcases (sameDiagnostic_iff d e).1 hsame with ⟨h1, h2, h3⟩
    cases hsd : sameDiagnostic d' e
    · rfl
    · exfalso
      rcases (sameDiagnostic_iff d' e).1 hsd with ⟨h1', h2', h3'⟩
      rcases hdiff with h | h | h
      · exact h (h1'.trans h1.symm)
      · exact h (h2'.trans h2.symm)
      · exact h (h3'.trans h3.symm)
  · intro d _ hnone
    refine actionsForDiag_unmatched s (buildErrorsMap errs) d ?_
    intro e he
    rw [buildErrorsMap_eq_filter] at he
    exact hnone e (List.mem_filter.mp he).1

/-- C1 witness: the concrete matching diagnostic yields exactly the action
built from the matched error's fix, and the membership equivalence holds
for it. -/
theorem suggestedFixes_join_w :
    SuggestedFixes wSnap [wD1] = .ok [wAction]
    ∧ (wAction ∈ [wAction] ↔ ∃ d ∈ [wD1], ∃ e ∈ [wErr1, wErr2],
        sameDiagnostic d e = true
        ∧ ∃ fix ∈ e.suggestedFixes, mkAction wSnap d fix = .ok wAction) :=
  have h : SuggestedFixes wSnap [wD1] = .ok [wAction] := by rfl
  ⟨h, (suggestedFixes_join wSnap [wD1] ⟨.ok [wErr1, wErr2]⟩ [wErr1, wErr2]
      [wAction] rfl rfl h).1 wAction⟩

/-! ## Claim C6: all-or-nothing fix construction -/

/-- C6: if any file touched by the edits of a suggested fix on a matched
error cannot be resolved, the whole `SuggestedFixes` call fails with an
error and returns no action list. -/
theorem suggestedFixes_all_or_nothing (s : Snapshot)
    (diags : List ProtoDiagnostic) (mth : ModTidyHandle)
    (errs : List SourceError) (d : ProtoDiagnostic) (e : SourceError)
    (fix : SuggestedFix) (uri : String) (eds : List TextEdit) (ge : GoErr)
    (hmth : s.modTidyHandle = .ok mth) (ht : mth.tidy = .ok errs)
    (hd : d ∈ diags) (he : e ∈ errs) (hsame : sameDiagnostic d e = true)
    (hfix : fix ∈ e.suggestedFixes) (hedit : (uri, eds) ∈ fix.edits)
    (hfail : s.getFile uri = .error ge) :
    ∃ err, SuggestedFixes s diags = .error err := by
  cases hres : SuggestedFixes s diags with
  | error err => exact ⟨err, rfl⟩
  | ok acts =>
    exfalso
    rcases suggestedFixes_ok_matched s diags mth errs acts hmth ht hres
      d hd e he hsame fix hfix with ⟨a, ha⟩
    rcases mkAction_ok_buildEdits s d fix a ha with ⟨dcs, hdcs⟩
    rcases buildEdits_ok_forall s fix.edits dcs hdcs (uri, eds) hedit with ⟨fh, hfh⟩
    rw [hfail] at hfh
    exact Except.noConfusion hfh

/-- C6 witness: a matched fix touching an unresolvable file makes the
whole call fail. -/
theorem suggestedFixes_all_or_nothing_w :
    ∃ err, SuggestedFixes wSnapBad [wDBad] = .error err :=
  suggestedFixes_all_or_nothing wSnapBad [wDBad] ⟨.ok [wErrBad]⟩ [wErrBad]
    wDBad wErrBad wFixBad "file.missing" [] (.msg "no such file")
    rfl rfl (by decide) (by decide) (by decide) (by decide) (by decide) rfl

/-! ## Claim C9: emission order and multiplicity -/

/-- C9: the action list of a successful `SuggestedFixes` call is exactly
the outer-to-inner concatenation over input diagnostics in caller order,
matched errors in analysis order, and each error's fixes in analysis
order, with no deduplication; every emitted action's diagnostics field is
the singleton matching input diagnostic. -/
theorem suggestedFixes_order (s : Snapshot) (diags : List ProtoDiagnostic)
    (mth : ModTidyHandle) (errs : List SourceError) (acts : List CodeAction)
    (hmth : s.modTidyHandle = .ok mth) (ht : mth.tidy = .ok errs)
    (hok : SuggestedFixes s diags = .ok acts) :
    acts = diags.flatMap (fun d =>
      (errs.filter (fun e => sameDiagnostic d e)).flatMap
        (fun e => e.suggestedFixes.filterMap
          (fun fix => (mkAction s d fix).toOption)))
    ∧ (∀ d ∈ diags, ∀ e ∈ errs, sameDiagnostic d e = true →
        ∀ fix ∈ e.suggestedFixes,
          ∃ a, mkAction s d fix = .ok a ∧ a.diagnostics = [d]) := by
  refine ⟨suggestedFixes_ok_eq s diags mth errs acts hmth ht hok, ?_⟩
  intro d hd e he hsame fix hfix
  rcases suggestedFixes_ok_matched s diags mth errs acts hmth ht hok
    d hd e he hsame fix hfix with ⟨a, ha⟩
  exact ⟨a, ha, (mkAction_ok_shape s d fix a ha).2.2⟩

/-- C9 witness: on the concrete snapshot the emitted list equals the
nested-loop concatenation, evaluated at the single matching input. -/
theorem suggestedFixes_order_w :
    SuggestedFixes wSnap [wD1] = .ok [wAction]
    ∧ [wAction] = List.flatMap [wD1] (fun d =>
        ([wErr1, wErr2].filter (fun e => sameDiagnostic d e)).flatMap
          (fun e => e.suggestedFixes.filterMap
            (fun fix => (mkAction wSnap d fix).toOption))) :=
  have h : SuggestedFixes wSnap [wD1] = .ok [wAction] := by rfl
  ⟨h, (suggestedFixes_order wSnap [wD1] ⟨.ok [wErr1, wErr2]⟩ [wErr1, wErr2]
      [wAction] rfl rfl h).1⟩

end Gopls
